import Mathlib

/-! Verification development for the MPPI controller implemented in
`src/planning/mm_planner.py` (class `MPPI`).

Tensors are modelled as functions on `Fin`-indexed coordinates over `ℝ`.
The random noise draw of a `command` call is an explicit input (the code
draws it from `self.noise_dist`); the dynamics and trajectory-cost
boundaries are opaque function parameters, exactly as the code treats the
duck-typed callables `self.F` and `self.trajectory_cost`.  The controller's
mutable attributes (`self.U` and the scratch attributes written by
`command`) form an explicit state record threaded through the stateful
operations.  A second, small scalar type `FP` with IEEE-754 special values
is used to settle the claim about non-finite costs. -/

noncomputable section

namespace MPPI

/-- Elementwise semantics of `torch.clamp(x, min=lo, max=hi)` on line 245
of `mm_planner.py` for the calls torch accepts: with at least one bound
present, the lower bound is applied first, then the upper bound.  When
BOTH bounds are `None`, `torch.clamp` raises `RuntimeError` ("At least one
of min or max must not be None"); that raise happens before any
elementwise computation and is modelled in `command`, which aborts at the
clamp step for no-bounds configurations — so the `none, none` row of this
elementwise helper is unreachable there and carries the junk value `0`. -/
def clampOpt (lo hi : Option ℝ) (x : ℝ) : ℝ :=
  match lo, hi with
  | none, none => 0
  | some l, none => max x l
  | none, some h => min x h
  | some l, some h => min (max x l) h

/-- Lines 188-189: `torch.roll(U, -1, dims=0)` followed by `U[-1] = u_init`.
Entry `t` of the shifted sequence is entry `t+1` of the input for
`t < T-1`, and the last entry is `u_init`. -/
def shiftU {T nu : ℕ} (u_init : Fin nu → ℝ) (U : Fin T → Fin nu → ℝ) :
    Fin T → Fin nu → ℝ :=
  fun t j => if h : (t : ℕ) + 1 < T then U ⟨(t : ℕ) + 1, h⟩ j else u_init j

/-- Line 240: `perturbed_action = U + noise`, broadcasting `U` over the
`K` samples. -/
def rawPerturbed {K T nu : ℕ} (U : Fin T → Fin nu → ℝ)
    (noise : Fin K → Fin T → Fin nu → ℝ) : Fin K → Fin T → Fin nu → ℝ :=
  fun k t j => U t j + noise k t j

/-- Lines 241-242: when `sample_null_action` is set, row `K-1` of the
perturbed action batch is overwritten with the literal `0`. -/
def forceNull {K T nu : ℕ} (sampleNull : Bool)
    (pa : Fin K → Fin T → Fin nu → ℝ) : Fin K → Fin T → Fin nu → ℝ :=
  fun k t j => if sampleNull = true ∧ (k : ℕ) = K - 1 then 0 else pa k t j

/-- Line 245: elementwise clamp of the perturbed action batch to the
optional per-dimension bounds. -/
def clampBatch {K T nu : ℕ} (u_min u_max : Option (Fin nu → ℝ))
    (pa : Fin K → Fin T → Fin nu → ℝ) : Fin K → Fin T → Fin nu → ℝ :=
  fun k t j =>
    clampOpt (u_min.map fun f => f j) (u_max.map fun f => f j) (pa k t j)

/-- Line 247: `noise = perturbed_action - U`, the effective (realizable)
perturbation after clamping. -/
def effNoise {K T nu : ℕ} (U : Fin T → Fin nu → ℝ)
    (pc : Fin K → Fin T → Fin nu → ℝ) : Fin K → Fin T → Fin nu → ℝ :=
  fun k t j => pc k t j - U t j

/-- Lines 249-255: `action_cost = lambda_ * noise @ noise_sigma_inv`, with
`abs(noise)` instead of `noise` when `noise_abs_cost` is set.  The batch
matrix product contracts the last axis of the noise with the rows of the
inverse covariance. -/
def actionCost {K T nu : ℕ} (lam : ℝ) (absCost : Bool)
    (sigInv : Fin nu → Fin nu → ℝ) (nz : Fin K → Fin T → Fin nu → ℝ) :
    Fin K → Fin T → Fin nu → ℝ :=
  fun k t j =>
    lam * ∑ m, (if absCost = true then |nz k t m| else nz k t m) * sigInv m j

/-- Line 279: `perturbation_cost = torch.sum(U * action_cost, dim=(1, 2))`,
summing over the horizon and control dimensions. -/
def perturbationCost {K T nu : ℕ} (U : Fin T → Fin nu → ℝ)
    (ac : Fin K → Fin T → Fin nu → ℝ) : Fin K → ℝ :=
  fun k => ∑ t, ∑ j, U t j * ac k t j

/-- Line 180: `_dynamics` forwards the timestep index to the dynamics
callable only when `step_dependent_dynamics` was configured. -/
def dynOf {nx nu : ℕ} (stepDep : Bool)
    (F3 : (Fin nx → ℝ) → (Fin nu → ℝ) → ℕ → (Fin nx → ℝ))
    (F2 : (Fin nx → ℝ) → (Fin nu → ℝ) → (Fin nx → ℝ)) :
    (Fin nx → ℝ) → (Fin nu → ℝ) → ℕ → (Fin nx → ℝ) :=
  fun s u t => if stepDep = true then F3 s u t else F2 s u

/-- Lines 261-266: the state recursion of one trajectory row.
`stateSeq Fd act init n` is the state after `n` applications of the
dynamics, starting from `init` and feeding action `act t` at step `t`
(the code records `stateSeq (t+1)` as the state for timestep `t`).  The
batched dynamics call of the code acts on the `K` rows independently, so
it is modelled rowwise. -/
def stateSeq {nx nu : ℕ} (Fd : (Fin nx → ℝ) → (Fin nu → ℝ) → ℕ → (Fin nx → ℝ))
    (act : ℕ → Fin nu → ℝ) (init : Fin nx → ℝ) : ℕ → Fin nx → ℝ
  | 0 => init
  | n + 1 => Fd (stateSeq Fd act init n) (act n) n

/-- Line 11-12: `_ensure_non_zero(cost, beta, factor) =
exp(-factor * (cost - beta))` is applied with `beta = torch.min(cost_total)`
(line 197).  `minCost` is that minimum (junk `0` for an empty batch, where
the code would error). -/
def minCost {K : ℕ} (c : Fin K → ℝ) : ℝ :=
  if h : 0 < K then Finset.univ.inf' ⟨⟨0, h⟩, Finset.mem_univ _⟩ c else 0

/-- Line 199: the unnormalized weights
`cost_total_non_zero = exp(-(1/lambda_) * (cost_total - beta))`. -/
def cnz {K : ℕ} (lam : ℝ) (c : Fin K → ℝ) : Fin K → ℝ :=
  fun k => Real.exp (-(1 / lam) * (c k - minCost c))

/-- Line 201: `eta = torch.sum(cost_total_non_zero)`. -/
def eta {K : ℕ} (lam : ℝ) (c : Fin K → ℝ) : ℝ := ∑ k, cnz lam c k

/-- Line 202: `omega = (1 / eta) * cost_total_non_zero`, the normalized
importance weights. -/
def omega {K : ℕ} (lam : ℝ) (c : Fin K → ℝ) : Fin K → ℝ :=
  fun k => (1 / eta lam c) * cnz lam c k

/-- Lines 132-152 of `__init__`: if exactly one of the bounds is supplied
the other is derived by negation (`u_min = -u_max`, resp. `u_max = -u_min`);
otherwise both are stored as given.  (The tensor/device conversions of the
original are value-preserving and not modelled.) -/
def initBounds {nu : ℕ} (u_min u_max : Option (Fin nu → ℝ)) :
    Option (Fin nu → ℝ) × Option (Fin nu → ℝ) :=
  match u_min, u_max with
  | none, some mx => (some fun j => -(mx j), some mx)
  | some mn, none => (some mn, some fun j => -(mn j))
  | mn, mx => (mn, mx)

/-- Input of `command`: either a single state of dimension `nx` or a batch
of exactly `K` states, distinguished by the shape test
`self.state.shape == (self.K, self.nx)` on line 232. -/
inductive StateInput (nx K : ℕ) where
  | single (v : Fin nx → ℝ)
  | batch (b : Fin K → Fin nx → ℝ)

/-- Lines 232-235: a single state is broadcast to `K` copies
(`view(1, -1).repeat(K, 1)`); a `(K, nx)` batch is used directly. -/
def initStates {nx K : ℕ} : StateInput nx K → Fin K → Fin nx → ℝ
  | .single v => fun _ => v
  | .batch b => b

/-- Configuration fixed at construction (`__init__`), restricted to the
fields `command` and `get_rollouts` read.  `F3`/`F2` are the dynamics
callable in its step-dependent and step-independent calling conventions. -/
structure Config (K T nu nx : ℕ) where
  stepDep : Bool
  F3 : (Fin nx → ℝ) → (Fin nu → ℝ) → ℕ → (Fin nx → ℝ)
  F2 : (Fin nx → ℝ) → (Fin nu → ℝ) → (Fin nx → ℝ)
  Cf : (Fin K → Fin T → Fin nx → ℝ) → (Fin K → Fin T → Fin nu → ℝ) → (Fin K → ℝ)
  lambda_ : ℝ
  u_scale : ℝ
  u_per_command : ℕ
  u_init : Fin nu → ℝ
  u_min : Option (Fin nu → ℝ)
  u_max : Option (Fin nu → ℝ)
  sample_null_action : Bool
  noise_abs_cost : Bool
  noise_sigma_inv : Fin nu → Fin nu → ℝ

/-- Mutable attributes of the controller: the persistent nominal sequence
`self.U` plus the scratch attributes `command` overwrites on every call
(lines 170-177 initialize them to `None`). -/
structure CtrlState (K T nu nx : ℕ) where
  U : Fin T → Fin nu → ℝ
  state : Option (StateInput nx K)
  cost_total : Option (Fin K → ℝ)
  cost_total_non_zero : Option (Fin K → ℝ)
  omega : Option (Fin K → ℝ)
  noise : Option (Fin K → Fin T → Fin nu → ℝ)
  perturbed_action : Option (Fin K → Fin T → Fin nu → ℝ)
  states : Option (Fin K → Fin T → Fin nx → ℝ)
  actions : Option (Fin K → Fin T → Fin nu → ℝ)

/-- Resolved `_dynamics` of a configured controller. -/
def cmdDyn {K T nu nx : ℕ} (cfg : Config K T nu nx) :
    (Fin nx → ℝ) → (Fin nu → ℝ) → ℕ → (Fin nx → ℝ) :=
  dynOf cfg.stepDep cfg.F3 cfg.F2

/-- Pre-clamp perturbed action batch of a `command` call (lines 240-242),
as a function of the shifted nominal sequence `U1` and the noise draw. -/
def preClampPerturbed {K T nu nx : ℕ} (cfg : Config K T nu nx)
    (ns : Fin K → Fin T → Fin nu → ℝ) (U1 : Fin T → Fin nu → ℝ) :
    Fin K → Fin T → Fin nu → ℝ :=
  forceNull cfg.sample_null_action (rawPerturbed U1 ns)

/-- Post-clamp perturbed action batch (line 245). -/
def postClampPerturbed {K T nu nx : ℕ} (cfg : Config K T nu nx)
    (ns : Fin K → Fin T → Fin nu → ℝ) (U1 : Fin T → Fin nu → ℝ) :
    Fin K → Fin T → Fin nu → ℝ :=
  clampBatch cfg.u_min cfg.u_max (preClampPerturbed cfg ns U1)

/-- Effective noise of a `command` call (line 247). -/
def cmdEffNoise {K T nu nx : ℕ} (cfg : Config K T nu nx)
    (ns : Fin K → Fin T → Fin nu → ℝ) (U1 : Fin T → Fin nu → ℝ) :
    Fin K → Fin T → Fin nu → ℝ :=
  effNoise U1 (postClampPerturbed cfg ns U1)

/-- State of trajectory row `k` after `n` dynamics steps inside
`_compute_total_cost_batch` (lines 261-266); the action at step `t` is the
scaled post-clamp perturbed action `u_scale * perturbed_action[:, t]`. -/
def cmdStateAt {K T nu nx : ℕ} (cfg : Config K T nu nx)
    (ns : Fin K → Fin T → Fin nu → ℝ) (U1 : Fin T → Fin nu → ℝ)
    (st : StateInput nx K) (k : Fin K) : ℕ → Fin nx → ℝ :=
  stateSeq (cmdDyn cfg)
    (fun n j =>
      cfg.u_scale *
        (if h : n < T then postClampPerturbed cfg ns U1 k ⟨n, h⟩ j else 0))
    (initStates st k)

/-- Recorded state sequences `self.states` (line 271): entry `t` is the
state after `t+1` dynamics steps (the initial state is not recorded). -/
def cmdRecStates {K T nu nx : ℕ} (cfg : Config K T nu nx)
    (ns : Fin K → Fin T → Fin nu → ℝ) (U1 : Fin T → Fin nu → ℝ)
    (st : StateInput nx K) : Fin K → Fin T → Fin nx → ℝ :=
  fun k t => cmdStateAt cfg ns U1 st k ((t : ℕ) + 1)

/-- The action sequences recorded in the rollout loop and handed to the
cost boundary on line 274: these are the scaled actions
`u_scale * perturbed_action` (the division by `u_scale` only happens on
line 276, after the cost call). -/
def cmdCostActions {K T nu nx : ℕ} (cfg : Config K T nu nx)
    (ns : Fin K → Fin T → Fin nu → ℝ) (U1 : Fin T → Fin nu → ℝ) :
    Fin K → Fin T → Fin nu → ℝ :=
  fun k t j => cfg.u_scale * postClampPerturbed cfg ns U1 k t j

/-- Total cost per trajectory returned by `_compute_total_cost_batch`
(lines 273-281): trajectory cost of the recorded states/actions plus the
control-effort (perturbation) cost. -/
def cmdTotalCost {K T nu nx : ℕ} (cfg : Config K T nu nx)
    (ns : Fin K → Fin T → Fin nu → ℝ) (U1 : Fin T → Fin nu → ℝ)
    (st : StateInput nx K) : Fin K → ℝ :=
  fun k =>
    cfg.Cf (cmdRecStates cfg ns U1 st) (cmdCostActions cfg ns U1) k +
      perturbationCost U1
        (actionCost cfg.lambda_ cfg.noise_abs_cost cfg.noise_sigma_inv
          (cmdEffNoise cfg ns U1)) k

/-- The nominal sequence after the update loop of lines 206-207: the
shifted sequence plus the importance-weighted sum of the effective noise,
where the weights come from the total costs of the `K` trajectories. -/
def cmdNewU {K T nu nx : ℕ} (cfg : Config K T nu nx)
    (ns : Fin K → Fin T → Fin nu → ℝ) (st : StateInput nx K)
    (U0 : Fin T → Fin nu → ℝ) : Fin T → Fin nu → ℝ :=
  fun t j =>
    shiftU cfg.u_init U0 t j +
      ∑ k, omega cfg.lambda_ (cmdTotalCost cfg ns (shiftU cfg.u_init U0) st) k *
        cmdEffNoise cfg ns (shiftU cfg.u_init U0) k t j

/-- One deterministic replay of the nominal sequence `U` through the
dynamics (the loop of lines 310-312 for one rollout row): entry `t` is the
state after `t+1` steps, feeding action `u_scale * U[t]` at step `t`
(line 314 drops the initial state). -/
def rolloutsCore {T nu nx : ℕ}
    (Fd : (Fin nx → ℝ) → (Fin nu → ℝ) → ℕ → (Fin nx → ℝ)) (scale : ℝ)
    (U : Fin T → Fin nu → ℝ) (init : Fin nx → ℝ) : Fin T → Fin nx → ℝ :=
  fun t =>
    stateSeq Fd (fun n j => scale * (if h : n < T then U ⟨n, h⟩ j else 0)) init
      ((t : ℕ) + 1)

/-- Lines 294-314, `get_rollouts`.  The input state is already reshaped to
`(r, nx)` (the effect of `state.view(-1, nx)`); `r = 1` is repeated to
`num_rollouts` rows.  The write `states[:, 0] = state` on line 309 requires
the (possibly repeated) row count to be broadcastable to `num_rollouts`,
and the reshape `U[t].view(num_rollouts, -1)` on line 312 only matches the
`(B, nu)` dynamics contract when `num_rollouts = 1`; the failing shape
combinations are modelled as `none` (a raised `RuntimeError`).  The nominal
sequence is replayed identically in every rollout row. -/
def get_rollouts {T nu nx : ℕ}
    (Fd : (Fin nx → ℝ) → (Fin nu → ℝ) → ℕ → (Fin nx → ℝ)) (scale : ℝ)
    (U : Fin T → Fin nu → ℝ) (r : ℕ) (sv : Fin r → Fin nx → ℝ)
    (num_rollouts : ℕ) : Option (Fin num_rollouts → Fin T → Fin nx → ℝ) :=
  if hn : num_rollouts = 1 then
    if hr : r = 1 ∨ r = num_rollouts then
      some fun _ t =>
        rolloutsCore Fd scale U (sv ⟨0, by rcases hr with h | h <;> omega⟩) t
    else none
  else none

/-- Lines 182-219, `command`, as a state transformer.  The noise draw `ns`
is the sample of line 238.  The call returns the pair of the first
`u_per_command` scaled actions and the rollout of the updated nominal
sequence, or `none` when the call raises, in which case the attribute
writes made before the raise are still visible in the returned controller
state, as in Python.  There are two raise points: (a) when both bounds are
`None`, `perturbed_action.clamp(min=None, max=None)` on line 245 raises
`RuntimeError` — at that point `U` has already been shifted (lines
188-189), `self.state` set (line 193), `self.cost_total` zeroed (line
229), `self.noise` holds the raw draw of line 238 and
`self.perturbed_action` the pre-clamp batch of lines 240-242, while the
remaining scratch attributes keep their previous values; (b) the trailing
`get_rollouts` call of line 217 raises on a `(K, nx)` state batch with
`K > 1`, after every update has been applied. -/
def command {K T nu nx : ℕ} (cfg : Config K T nu nx)
    (ns : Fin K → Fin T → Fin nu → ℝ) (st : StateInput nx K)
    (s : CtrlState K T nu nx) :
    Option ((Fin cfg.u_per_command → Fin nu → ℝ) × (Fin 1 → Fin T → Fin nx → ℝ)) ×
      CtrlState K T nu nx :=
  let U1 := shiftU cfg.u_init s.U
  if cfg.u_min.isNone && cfg.u_max.isNone then
    (none,
      ⟨U1, some st, some (fun _ => 0), s.cost_total_non_zero, s.omega,
        some ns, some (preClampPerturbed cfg ns U1), s.states, s.actions⟩)
  else
  let U2 := cmdNewU cfg ns st s.U
  let acts : Fin cfg.u_per_command → Fin nu → ℝ :=
    fun i j => cfg.u_scale * (if h : (i : ℕ) < T then U2 ⟨(i : ℕ), h⟩ j else 0)
  let rv : Σ r : ℕ, Fin r → Fin nx → ℝ :=
    match st with
    | .single v => ⟨1, fun _ => v⟩
    | .batch b => ⟨K, b⟩
  let ro := get_rollouts (cmdDyn cfg) cfg.u_scale U2 rv.1 rv.2 1
  let res :=
    match ro with
    | none => none
    | some rollout => some (acts, rollout)
  (res,
    ⟨U2, some st, some (cmdTotalCost cfg ns U1 st),
      some (cnz cfg.lambda_ (cmdTotalCost cfg ns U1 st)),
      some (omega cfg.lambda_ (cmdTotalCost cfg ns U1 st)),
      some (cmdEffNoise cfg ns U1), some (postClampPerturbed cfg ns U1),
      some (cmdRecStates cfg ns U1 st),
      some fun k t j => cmdCostActions cfg ns U1 k t j / cfg.u_scale⟩)

/-- The `get_rollouts` method as a state transformer: its body reads
`self.U` (and the configured dynamics and scale) and assigns no attribute,
so the controller state is returned unchanged. -/
def get_rolloutsS {K T nu nx : ℕ} (cfg : Config K T nu nx) (r : ℕ)
    (sv : Fin r → Fin nx → ℝ) (num_rollouts : ℕ) (s : CtrlState K T nu nx) :
    Option (Fin num_rollouts → Fin T → Fin nx → ℝ) × CtrlState K T nu nx :=
  (get_rollouts (cmdDyn cfg) cfg.u_scale s.U r sv num_rollouts, s)

/-- Torch tensors hold IEEE-754 floating-point values.  To settle the
behaviour of `command` on non-finite total costs, the scalar type `FP`
models a real value together with the special values `inf`, `ninf` and
`nan`, with the IEEE semantics of the arithmetic operations the weight
computation of lines 197-207 performs. -/
inductive FP where
  | nan : FP
  | inf : FP
  | ninf : FP
  | fin : ℝ → FP

namespace FP

/-- IEEE negation. -/
def fpNeg : FP → FP
  | nan => nan
  | inf => ninf
  | ninf => inf
  | fin x => fin (-x)

/-- IEEE addition: `nan` propagates; opposite infinities give `nan`. -/
def fpAdd : FP → FP → FP
  | nan, _ => nan
  | _, nan => nan
  | inf, ninf => nan
  | ninf, inf => nan
  | inf, _ => inf
  | _, inf => inf
  | ninf, _ => ninf
  | _, ninf => ninf
  | fin a, fin b => fin (a + b)

/-- IEEE subtraction, as addition of the negation. -/
def fpSub (a b : FP) : FP := fpAdd a (fpNeg b)

/-- IEEE multiplication: `nan` propagates; `0 * ±inf = nan`. -/
def fpMul : FP → FP → FP
  | nan, _ => nan
  | _, nan => nan
  | inf, inf => inf
  | inf, ninf => ninf
  | ninf, inf => ninf
  | ninf, ninf => inf
  | inf, fin b => if b = 0 then nan else if 0 < b then inf else ninf
  | fin a, inf => if a = 0 then nan else if 0 < a then inf else ninf
  | ninf, fin b => if b = 0 then nan else if 0 < b then ninf else inf
  | fin a, ninf => if a = 0 then nan else if 0 < a then ninf else inf
  | fin a, fin b => fin (a * b)

/-- IEEE division: `nan` propagates; `inf/inf = nan`; division of a finite
value by zero gives a signed infinity (`0/0 = nan`). -/
def fpDiv : FP → FP → FP
  | nan, _ => nan
  | _, nan => nan
  | inf, inf => nan
  | inf, ninf => nan
  | ninf, inf => nan
  | ninf, ninf => nan
  | inf, fin b => if 0 ≤ b then inf else ninf
  | ninf, fin b => if 0 ≤ b then ninf else inf
  | fin _, inf => fin 0
  | fin _, ninf => fin 0
  | fin a, fin b =>
      if b = 0 then (if a = 0 then nan else if 0 < a then inf else ninf)
      else fin (a / b)

/-- IEEE exponential: `exp nan = nan`, `exp inf = inf`, `exp (-inf) = 0`. -/
def fpExp : FP → FP
  | nan => nan
  | inf => inf
  | ninf => fin 0
  | fin x => fin (Real.exp x)

/-- Pairwise minimum with the `nan` propagation of the `torch.min`
reduction. -/
def fpMin : FP → FP → FP
  | nan, _ => nan
  | _, nan => nan
  | ninf, _ => ninf
  | _, ninf => ninf
  | inf, b => b
  | a, inf => a
  | fin a, fin b => fin (min a b)

/-- `torch.min` reduction over a nonempty list (`nan` junk on the empty
list, where torch errors). -/
def fpMinList : List FP → FP
  | [] => nan
  | x :: xs => xs.foldl fpMin x

/-- `torch.sum` reduction (initial accumulator `0`). -/
def fpSumList (l : List FP) : FP := l.foldl fpAdd (fin 0)

end FP

open FP in
/-- Line 197: `beta = torch.min(cost_total)` over `FP` scalars. -/
def betaFP {K : ℕ} (c : Fin K → FP) : FP := fpMinList (List.ofFn c)

open FP in
/-- Line 199 over `FP` scalars:
`cost_total_non_zero = exp(-(1/lambda_) * (cost_total - beta))`. -/
def cnzFP {K : ℕ} (lam : FP) (c : Fin K → FP) (k : Fin K) : FP :=
  fpExp (fpNeg (fpMul (fpDiv (FP.fin 1) lam) (fpSub (c k) (betaFP c))))

open FP in
/-- Line 201 over `FP` scalars: `eta = torch.sum(cost_total_non_zero)`. -/
def etaFP {K : ℕ} (lam : FP) (c : Fin K → FP) : FP :=
  fpSumList (List.ofFn (cnzFP lam c))

open FP in
/-- Line 202 over `FP` scalars: `omega = (1/eta) * cost_total_non_zero`. -/
def omegaFP {K : ℕ} (lam : FP) (c : Fin K → FP) (k : Fin K) : FP :=
  fpMul (fpDiv (FP.fin 1) (etaFP lam c)) (cnzFP lam c k)

open FP in
/-- Lines 206-207 over `FP` scalars: the update
`U[t] += sum(omega * noise[:, t])` applied to the shifted nominal sequence,
with the total costs `c` as returned by `_compute_total_cost_batch`.  The
code runs this unconditionally: there is no finiteness test anywhere in
`command`. -/
def updatedUFP {K T nu : ℕ} (lam : FP) (c : Fin K → FP)
    (shifted : Fin T → Fin nu → FP) (nz : Fin K → Fin T → Fin nu → FP) :
    Fin T → Fin nu → FP :=
  fun t j =>
    fpAdd (shifted t j)
      (fpSumList (List.ofFn fun k => fpMul (omegaFP lam c k) (nz k t j)))

/-- Concrete configuration (identity dynamics, zero cost boundary,
bounds `[-1, 1]` so the clamp step succeeds, `K = 2`) used to evaluate the
batched-state path of `command`. -/
def c5cfg : Config 2 1 1 1 :=
  ⟨false, fun s _ _ => s, fun s _ => s, fun _ _ _ => 0, 1, 1, 1, fun _ => 0,
    some fun _ => -1, some fun _ => 1, false, false, fun _ _ => 1⟩

/-- Concrete configuration with `sample_null_action` enabled and a nonzero
configured default action `u_init = 1`. -/
def c6cfg : Config 1 1 1 1 :=
  ⟨false, fun s _ _ => s, fun s _ => s, fun _ _ _ => 0, 1, 1, 1, fun _ => 1,
    none, none, true, false, fun _ _ => 1⟩

/-- Concrete configuration with control scale `u_scale = 2`, wide bounds
`[-10, 10]` (so the clamp step succeeds and does not clip), zero inverse
covariance (so the control-effort cost vanishes) and a cost boundary that
returns the first entry of the action batch it receives. -/
def c7cfg : Config 1 1 1 1 :=
  ⟨false, fun s _ _ => s, fun s _ => s, fun _ a _ => a 0 0 0, 1, 2, 1,
    fun _ => 1, some fun _ => -10, some fun _ => 10, false, false,
    fun _ _ => 0⟩

/-- Concrete configuration with bounds `[-1, 1]`, used to evaluate the
clamp on a sampled perturbation of `+5`. -/
def c3cfg : Config 1 1 1 1 :=
  ⟨false, fun s _ _ => s, fun s _ => s, fun _ _ _ => 0, 1, 1, 1, fun _ => 0,
    some fun _ => -1, some fun _ => 1, false, false, fun _ _ => 1⟩

/-- Concrete configuration with NO bounds configured (both `None`), used
to evaluate the `RuntimeError` raised by `torch.clamp(min=None, max=None)`
on line 245. -/
def nbcfg : Config 1 1 1 1 :=
  ⟨false, fun s _ _ => s, fun s _ => s, fun _ _ _ => 0, 1, 1, 1, fun _ => 0,
    none, none, false, false, fun _ _ => 1⟩

/-- Fresh controller state (`U = 0`, all scratch attributes `None`) for the
concrete evaluations. -/
def freshState (K T nu nx : ℕ) : CtrlState K T nu nx :=
  ⟨fun _ _ => 0, none, none, none, none, none, none, none, none⟩

namespace FP

theorem fpNeg_nan : fpNeg nan = nan := rfl

theorem fpExp_nan : fpExp nan = nan := rfl

theorem fpAdd_nan_left (a : FP) : fpAdd nan a = nan := by cases a <;> rfl

theorem fpAdd_nan_right (a : FP) : fpAdd a nan = nan := by cases a <;> rfl

theorem fpSub_nan_right (a : FP) : fpSub a nan = nan := by cases a <;> rfl

theorem fpMul_nan_left (a : FP) : fpMul nan a = nan := by cases a <;> rfl

theorem fpMul_nan_right (a : FP) : fpMul a nan = nan := by cases a <;> rfl

theorem fpDiv_nan_right (a : FP) : fpDiv a nan = nan := by cases a <;> rfl

theorem fpMin_nan_left (a : FP) : fpMin nan a = nan := by cases a <;> rfl

theorem fpMin_nan_right (a : FP) : fpMin a nan = nan := by cases a <;> rfl

theorem foldl_fpMin_nan (l : List FP) : l.foldl fpMin nan = nan := by
  induction l with
  | nil => rfl
  | cons x xs ih => simpa [List.foldl_cons, fpMin_nan_left] using ih

theorem foldl_fpMin_mem_nan :
    ∀ (l : List FP), nan ∈ l → ∀ a, l.foldl fpMin a = nan := by
  intro l
  induction l with
  | nil => intro h; cases h
  | cons x xs ih =>
    intro h a
    rcases List.mem_cons.mp h with hx | hx
    · subst hx
      simp [List.foldl_cons, fpMin_nan_right, foldl_fpMin_nan]
    · simpa [List.foldl_cons] using ih hx _

theorem fpMinList_of_mem_nan {l : List FP} (h : nan ∈ l) : fpMinList l = nan := by
  cases l with
  | nil => cases h
  | cons x xs =>
    rcases List.mem_cons.mp h with hx | hx
    · subst hx; exact foldl_fpMin_nan xs
    · exact foldl_fpMin_mem_nan xs hx x

theorem foldl_fpAdd_nan (l : List FP) : l.foldl fpAdd nan = nan := by
  induction l with
  | nil => rfl
  | cons x xs ih => simpa [List.foldl_cons, fpAdd_nan_left] using ih

theorem foldl_fpAdd_mem_nan :
    ∀ (l : List FP), nan ∈ l → ∀ a, l.foldl fpAdd a = nan := by
  intro l
  induction l with
  | nil => intro h; cases h
  | cons x xs ih =>
    intro h a
    rcases List.mem_cons.mp h with hx | hx
    · subst hx
      simp [List.foldl_cons, fpAdd_nan_right, foldl_fpAdd_nan]
    · simpa [List.foldl_cons] using ih hx _

theorem fpSumList_of_mem_nan {l : List FP} (h : nan ∈ l) : fpSumList l = nan :=
  foldl_fpAdd_mem_nan l h _

end FP

theorem betaFP_of_nan {K : ℕ} {c : Fin K → FP} (h : ∃ k, c k = FP.nan) :
    betaFP c = FP.nan := by
  obtain ⟨k, hk⟩ := h
  exact FP.fpMinList_of_mem_nan ((List.mem_ofFn _ _).mpr ⟨k, hk⟩)

theorem cnzFP_of_beta_nan {K : ℕ} (lam : FP) {c : Fin K → FP}
    (h : betaFP c = FP.nan) (k : Fin K) : cnzFP lam c k = FP.nan := by
  simp [cnzFP, h, FP.fpSub_nan_right, FP.fpMul_nan_right, FP.fpNeg_nan,
    FP.fpExp_nan]

theorem etaFP_of_nan {K : ℕ} (hK : 0 < K) (lam : FP) {c : Fin K → FP}
    (h : betaFP c = FP.nan) : etaFP lam c = FP.nan :=
  FP.fpSumList_of_mem_nan
    ((List.mem_ofFn _ _).mpr ⟨⟨0, hK⟩, cnzFP_of_beta_nan lam h _⟩)

theorem omegaFP_of_eta_nan {K : ℕ} (lam : FP) {c : Fin K → FP}
    (h : etaFP lam c = FP.nan) (k : Fin K) : omegaFP lam c k = FP.nan := by
  simp [omegaFP, h, FP.fpDiv_nan_right, FP.fpMul_nan_left]

theorem updatedUFP_nan {K T nu : ℕ} (hK : 0 < K) (lam : FP) {c : Fin K → FP}
    (h : ∃ k, c k = FP.nan) (shifted : Fin T → Fin nu → FP)
    (nz : Fin K → Fin T → Fin nu → FP) (t : Fin T) (j : Fin nu) :
    updatedUFP lam c shifted nz t j = FP.nan := by
  have hb := betaFP_of_nan h
  have he := etaFP_of_nan hK lam hb
  have hsum :
      FP.fpSumList (List.ofFn fun k => FP.fpMul (omegaFP lam c k) (nz k t j))
        = FP.nan :=
    FP.fpSumList_of_mem_nan
      ((List.mem_ofFn _ _).mpr
        ⟨⟨0, hK⟩, by
          show FP.fpMul (omegaFP lam c ⟨0, hK⟩) (nz ⟨0, hK⟩ t j) = FP.nan
          rw [omegaFP_of_eta_nan lam he]
          exact FP.fpMul_nan_left _⟩)
  simp [updatedUFP, hsum, FP.fpAdd_nan_right]

theorem minCost_eq {K : ℕ} (hK : 0 < K) (c : Fin K → ℝ) :
    minCost c = Finset.univ.inf' ⟨⟨0, hK⟩, Finset.mem_univ _⟩ c := dif_pos hK

theorem exists_minCost {K : ℕ} (hK : 0 < K) (c : Fin K → ℝ) :
    ∃ k, c k = minCost c ∧ ∀ i, minCost c ≤ c i := by
  rw [minCost_eq hK]
  obtain ⟨k, -, hk⟩ := Finset.exists_mem_eq_inf' _ c
  exact ⟨k, hk.symm, fun i => Finset.inf'_le _ (Finset.mem_univ i)⟩

theorem eta_pos {K : ℕ} (hK : 0 < K) (lam : ℝ) (c : Fin K → ℝ) :
    0 < eta lam c :=
  Finset.sum_pos (fun _ _ => Real.exp_pos _) ⟨⟨0, hK⟩, Finset.mem_univ _⟩

theorem omega_eq_div {K : ℕ} (lam : ℝ) (c : Fin K → ℝ) (k : Fin K) :
    omega lam c k = cnz lam c k / eta lam c := by
  rw [omega, one_div, inv_mul_eq_div]

/-- C1 (amended): every call to `command` first shifts the stored nominal
sequence left by one timestep — entry `t` of the shifted sequence is entry
`t+1` of the pre-call `U` for `t < T-1` and the last entry is the
configured default action `u_init`.  When bounds are configured (so the
clamp step of line 245 succeeds), the post-call `U` is that shifted
sequence plus, at every timestep, the importance-weighted sum over the `K`
samples of the effective noise; when no bounds are configured the clamp
raises after the shift and the post-call `U` is the shifted sequence
alone, with no weighted term added. -/
theorem c1_command_shift_and_update {K T nu nx : ℕ} (cfg : Config K T nu nx)
    (ns : Fin K → Fin T → Fin nu → ℝ) (st : StateInput nx K)
    (s : CtrlState K T nu nx) :
    (∀ mn, cfg.u_min = some mn →
      ((command cfg ns st s).2).U = fun (t : Fin T) (j : Fin nu) =>
        (if h : (t : ℕ) + 1 < T then s.U ⟨(t : ℕ) + 1, h⟩ j else cfg.u_init j) +
          ∑ k, omega cfg.lambda_ (cmdTotalCost cfg ns (shiftU cfg.u_init s.U) st) k *
            cmdEffNoise cfg ns (shiftU cfg.u_init s.U) k t j)
    ∧ (cfg.u_min = none → cfg.u_max = none →
      ((command cfg ns st s).2).U = fun (t : Fin T) (j : Fin nu) =>
        if h : (t : ℕ) + 1 < T then s.U ⟨(t : ℕ) + 1, h⟩ j else cfg.u_init j) := by
  constructor
  · intro mn hmn
    simp only [command]
    split
    · next h =>
        rw [hmn] at h
        simp at h
    · rfl
  · intro hmn hmx
    simp only [command]
    split
    · rfl
    · next h =>
        rw [hmn, hmx] at h
        simp at h

/-- Witness for C1: with bounds `[-1, 1]` configured the clamp step
succeeds and the updated nominal sequence equals the shifted sequence plus
the weighted effective noise. -/
theorem c1_witness :
    ((command c3cfg (fun _ _ _ => 0) (.single fun _ => 0)
        (freshState 1 1 1 1)).2).U = fun (t : Fin 1) (j : Fin 1) =>
      (if h : (t : ℕ) + 1 < 1 then (freshState 1 1 1 1).U ⟨(t : ℕ) + 1, h⟩ j
        else c3cfg.u_init j) +
        ∑ k, omega c3cfg.lambda_
            (cmdTotalCost c3cfg (fun _ _ _ => 0)
              (shiftU c3cfg.u_init (freshState 1 1 1 1).U)
              (.single fun _ => 0)) k *
          cmdEffNoise c3cfg (fun _ _ _ => 0)
            (shiftU c3cfg.u_init (freshState 1 1 1 1).U) k t j :=
  (c1_command_shift_and_update c3cfg (fun _ _ _ => 0) (.single fun _ => 0)
    (freshState 1 1 1 1)).1 (fun _ => -1) rfl

/-- Counterexample for C1 as stated: with no bounds configured the clamp
on line 245 raises, so `command` aborts right after the shift — the call
returns no result and the post-call `U` equals the shifted sequence with
no weighted term added.  The claimed update would have changed `U` here:
the noise draw is the constant `1`, the single sample's normalized weight
is `1` whatever its total cost (shown for the total cost `0`), the shifted
entry is `0`, and adding the weighted perturbation `1` to it would not
leave `0`. -/
theorem c1_counterexample :
    (command nbcfg (fun _ _ _ => 1) (.single fun _ => 0)
        (freshState 1 1 1 1)).1 = none
    ∧ (command nbcfg (fun _ _ _ => 1) (.single fun _ => 0)
        (freshState 1 1 1 1)).2.U
      = shiftU nbcfg.u_init (freshState 1 1 1 1).U
    ∧ omega nbcfg.lambda_ (fun _ : Fin 1 => (0 : ℝ)) 0 = 1
    ∧ shiftU nbcfg.u_init (freshState 1 1 1 1).U 0 0 = 0
    ∧ (0 : ℝ) + 1 ≠ 0 := by
  refine ⟨rfl, rfl, ?_, rfl, by norm_num⟩
  simp only [omega, eta, Fin.sum_univ_one, one_div]
  exact inv_mul_cancel₀ (Real.exp_ne_zero _)

/-- C9: `get_rollouts` mutates neither the nominal sequence `U` nor any
other controller attribute, and two successive calls with the same
arguments (the dynamics boundary is a function, hence deterministic)
return identical results. -/
theorem c9_get_rollouts_pure {K T nu nx : ℕ} (cfg : Config K T nu nx)
    (r : ℕ) (sv : Fin r → Fin nx → ℝ) (num_rollouts : ℕ)
    (s : CtrlState K T nu nx) :
    (get_rolloutsS cfg r sv num_rollouts s).2 = s ∧
      (get_rolloutsS cfg r sv num_rollouts
          ((get_rolloutsS cfg r sv num_rollouts s).2)).1
        = (get_rolloutsS cfg r sv num_rollouts s).1 := ⟨rfl, rfl⟩

/-- C4 (amended): when some total trajectory cost is NaN, the update is
not rejected: `command` runs the weighted update unconditionally (there is
no finiteness test), the NaN propagates through `beta`, the weights and
the sum, and every entry of the post-call nominal sequence is NaN — the
prior `U` is not retained and no warning is raised. -/
theorem c4_nonfinite_cost_not_rejected {K T nu : ℕ} (hK : 0 < K) (lam : FP)
    (c : Fin K → FP) (h : ∃ k, c k = FP.nan) (shifted : Fin T → Fin nu → FP)
    (nz : Fin K → Fin T → Fin nu → FP) :
    ∀ t j, updatedUFP lam c shifted nz t j = FP.nan := fun t j =>
  updatedUFP_nan hK lam h shifted nz t j

/-- Witness for C4: a concrete two-trajectory batch whose second total
cost is NaN (with `lambda = 1`, shifted nominal sequence `0` and zero
effective noise) makes the updated nominal entry NaN. -/
theorem c4_witness :
    updatedUFP (FP.fin 1) (![FP.fin 0, FP.nan] : Fin 2 → FP)
      (fun _ _ => FP.fin 0) (fun _ _ _ => FP.fin 0) (0 : Fin 1) (0 : Fin 1)
      = FP.nan :=
  c4_nonfinite_cost_not_rejected (by norm_num) (FP.fin 1) _
    ⟨1, by simp⟩ _ _ 0 0

/-- Counterexample for C4 as stated: at the same concrete input the
post-call nominal entry is NaN, which differs from the pre-call entry `0`
— so `U` is not left unchanged when a total cost is non-finite. -/
theorem c4_counterexample :
    updatedUFP (FP.fin 1) (![FP.fin 0, FP.nan] : Fin 2 → FP)
      (fun _ _ => FP.fin 0) (fun _ _ _ => FP.fin 0) (0 : Fin 1) (0 : Fin 1)
      = FP.nan ∧ FP.nan ≠ FP.fin 0 :=
  ⟨updatedUFP_nan (by norm_num) (FP.fin 1) ⟨1, by simp⟩ _ _ 0 0,
    fun h => FP.noConfusion h⟩

/-- C2: the importance weights are
`exp(-(cost - beta)/lambda)` with `beta` the minimum total cost,
normalized by their sum; the `K` weights sum to `1`, and when all total
costs are equal every weight is `1/K`. -/
theorem c2_importance_weights {K : ℕ} (hK : 0 < K) (lam : ℝ)
    (c : Fin K → ℝ) :
    (∀ k, omega lam c k
        = Real.exp (-((c k - minCost c) / lam))
            / ∑ i, Real.exp (-((c i - minCost c) / lam)))
    ∧ (∑ k, omega lam c k = 1)
    ∧ ((∀ k k', c k = c k') → ∀ k, omega lam c k = 1 / K) := by
  have hcnz : ∀ k, cnz lam c k = Real.exp (-((c k - minCost c) / lam)) := by
    intro k
    unfold cnz
    rw [neg_mul, one_div_mul_eq_div]
  have heta : eta lam c = ∑ i, Real.exp (-((c i - minCost c) / lam)) :=
    Finset.sum_congr rfl fun i _ => hcnz i
  refine ⟨fun k => by rw [omega_eq_div, hcnz, heta], ?_, ?_⟩
  · have h0 : eta lam c ≠ 0 := (eta_pos hK lam c).ne'
    have hsum : ∑ k, omega lam c k = (∑ k, cnz lam c k) / eta lam c := by
      rw [Finset.sum_div]
      exact Finset.sum_congr rfl fun k _ => omega_eq_div lam c k
    rw [hsum]
    exact div_self h0
  · intro hcc k
    obtain ⟨k0, hk0, -⟩ := exists_minCost hK c
    have h1 : ∀ i, cnz lam c i = 1 := by
      intro i
      unfold cnz
      rw [← hk0, hcc i k0, sub_self, mul_zero, Real.exp_zero]
    have heta1 : eta lam c = (K : ℝ) := by
      unfold eta
      rw [Finset.sum_congr rfl fun i _ => h1 i]
      simp
    rw [omega_eq_div, h1, heta1, one_div]

/-- Witness for C2: with two equal total costs the weights are `1/2` each
and sum to `1`. -/
theorem c2_witness :
    (∑ k, omega 1 (![0, 0] : Fin 2 → ℝ) k = 1)
    ∧ ∀ k, omega 1 (![0, 0] : Fin 2 → ℝ) k = 1 / (2 : ℕ) :=
  ⟨(c2_importance_weights (by norm_num) 1 _).2.1,
    (c2_importance_weights (by norm_num) 1 _).2.2 (by
      intro k k'
      fin_cases k <;> fin_cases k' <;> rfl)⟩

/-- C10: for finite costs the minimum-cost trajectory has unnormalized
weight `exp 0 = 1`, the normalization denominator is at least `1` (so the
division is well-defined), and every probability weight lies in `(0, 1]`. -/
theorem c10_weight_bounds {K : ℕ} (hK : 0 < K) (lam : ℝ) (c : Fin K → ℝ) :
    (∃ k, c k = minCost c ∧ cnz lam c k = 1)
    ∧ 1 ≤ eta lam c
    ∧ ∀ k, 0 < omega lam c k ∧ omega lam c k ≤ 1 := by
  obtain ⟨k0, hk0, -⟩ := exists_minCost hK c
  have h1 : cnz lam c k0 = 1 := by
    unfold cnz
    rw [hk0, sub_self, mul_zero, Real.exp_zero]
  have hle : ∀ k, cnz lam c k ≤ eta lam c := by
    intro k
    refine Finset.single_le_sum ?_ (Finset.mem_univ k)
    intro i _
    exact (Real.exp_pos _).le
  have heta1 : 1 ≤ eta lam c := h1 ▸ hle k0
  have hetapos : 0 < eta lam c := lt_of_lt_of_le one_pos heta1
  refine ⟨⟨k0, hk0, h1⟩, heta1, fun k => ?_⟩
  rw [omega_eq_div]
  exact ⟨div_pos (Real.exp_pos _) hetapos, (div_le_one hetapos).mpr (hle k)⟩

/-- Witness for C10: with two equal total costs every weight is positive
and at most `1`. -/
theorem c10_witness :
    0 < omega 1 (![0, 0] : Fin 2 → ℝ) 0 ∧ omega 1 (![0, 0] : Fin 2 → ℝ) 0 ≤ 1 :=
  (c10_weight_bounds (by norm_num) 1 _).2.2 0

/-- C3 (amended): with both bounds configured and satisfying the
documented elementwise invariant `u_min <= u_max`, every element of the
clamped perturbed action batch lies within `[u_min, u_max]`, and the noise
stored on the controller — the one used afterwards for the control-effort
cost and the weighted update — equals the clamped perturbed action minus
the (shifted) nominal sequence, not the raw pre-clamp sample.  With no
bounds configured, clamping is NOT a no-op: `torch.clamp(min=None,
max=None)` on line 245 raises `RuntimeError`, so the call aborts with no
clamped batch produced — the stored perturbed actions are the pre-clamp
batch and the stored noise is the raw draw. -/
theorem c3_clamp_and_effective_noise {K T nu nx : ℕ} (cfg : Config K T nu nx)
    (ns : Fin K → Fin T → Fin nu → ℝ) (st : StateInput nx K)
    (s : CtrlState K T nu nx) :
    (∀ mn mx, cfg.u_min = some mn → cfg.u_max = some mx →
      (∀ j, mn j ≤ mx j) →
      ∀ k t j, mn j ≤ postClampPerturbed cfg ns (shiftU cfg.u_init s.U) k t j
        ∧ postClampPerturbed cfg ns (shiftU cfg.u_init s.U) k t j ≤ mx j)
    ∧ (∀ mn, cfg.u_min = some mn →
        (command cfg ns st s).2.noise
          = some fun k t j =>
              postClampPerturbed cfg ns (shiftU cfg.u_init s.U) k t j
                - shiftU cfg.u_init s.U t j)
    ∧ (cfg.u_min = none → cfg.u_max = none →
        (command cfg ns st s).1 = none
          ∧ (command cfg ns st s).2.noise = some ns
          ∧ (command cfg ns st s).2.perturbed_action
              = some (preClampPerturbed cfg ns (shiftU cfg.u_init s.U))) := by
  refine ⟨?_, ?_, ?_⟩
  · intro mn mx hmn hmx hle k t j
    simp only [postClampPerturbed, clampBatch, hmn, hmx, Option.map_some',
      clampOpt]
    exact ⟨le_min (le_max_right _ _) (hle j), min_le_right _ _⟩
  · intro mn hmn
    simp only [command]
    split
    · next h =>
        rw [hmn] at h
        simp at h
    · rfl
  · intro hmn hmx
    simp only [command]
    split
    · exact ⟨rfl, rfl, rfl⟩
    · next h =>
        rw [hmn, hmx] at h
        simp at h

/-- Witness for C3: bounds `[-1, 1]` and a sampled perturbation of `+5`
(with nominal sequence `0`): the clamped value lies in the interval, and
the stored noise equals clamped-minus-nominal. -/
theorem c3_witness :
    ((-1 : ℝ) ≤ postClampPerturbed c3cfg (fun _ _ _ => 5)
        (shiftU c3cfg.u_init (freshState 1 1 1 1).U) 0 0 0
      ∧ postClampPerturbed c3cfg (fun _ _ _ => 5)
          (shiftU c3cfg.u_init (freshState 1 1 1 1).U) 0 0 0 ≤ 1)
    ∧ (command c3cfg (fun _ _ _ => 5) (.single fun _ => 0)
          (freshState 1 1 1 1)).2.noise
        = some fun k t j =>
            postClampPerturbed c3cfg (fun _ _ _ => 5)
              (shiftU c3cfg.u_init (freshState 1 1 1 1).U) k t j
              - shiftU c3cfg.u_init (freshState 1 1 1 1).U t j := by
  constructor
  · exact (c3_clamp_and_effective_noise c3cfg (fun _ _ _ => 5)
      (.single fun _ => 0) (freshState 1 1 1 1)).1
      (fun _ => -1) (fun _ => 1) rfl rfl (fun _ => by norm_num) 0 0 0
  · exact (c3_clamp_and_effective_noise c3cfg (fun _ _ _ => 5)
      (.single fun _ => 0) (freshState 1 1 1 1)).2.1 (fun _ => -1) rfl

/-- Counterexample for C3 as stated ("with no bounds configured, clamping
changes nothing"): with no bounds the clamp call on line 245 raises
(`torch.clamp` requires at least one of min/max), so `command` aborts and
no clamped batch is produced — the call returns no result, the stored
perturbed actions are the pre-clamp batch and the stored noise is the raw
draw — instead of the clamp acting as the identity on a completing call. -/
theorem c3_counterexample :
    (command nbcfg (fun _ _ _ => 1) (.single fun _ => 0)
        (freshState 1 1 1 1)).1 = none
    ∧ (command nbcfg (fun _ _ _ => 1) (.single fun _ => 0)
        (freshState 1 1 1 1)).2.perturbed_action
      = some (preClampPerturbed nbcfg (fun _ _ _ => 1)
          (shiftU nbcfg.u_init (freshState 1 1 1 1).U))
    ∧ (command nbcfg (fun _ _ _ => 1) (.single fun _ => 0)
        (freshState 1 1 1 1)).2.noise = some fun _ _ _ => 1 :=
  ⟨rfl, rfl, rfl⟩

/-- C5: the cost computation accepts a single state (broadcast to `K`
copies) or a batch of exactly `K` states, but the call only completes in
the single-state case: with `K = 2`, the single-state call returns a
result while the batched call hits the failing tensor write
`states[:, 0] = state` inside the trailing `get_rollouts` call (a `(2, 1)`
state cannot broadcast into the `(1, 1)` slice) and raises instead of
returning. -/
theorem c5_batch_state_rollout_error :
    ((command c5cfg (fun _ _ _ => 0) (.single fun _ => 0)
        (freshState 2 1 1 1)).1).isSome = true
    ∧ (command c5cfg (fun _ _ _ => 0) (.batch fun _ _ => 0)
        (freshState 2 1 1 1)).1 = none := ⟨rfl, rfl⟩

/-- C6 (amended): when the null-action-sampling option is enabled, the
last of the `K` sampled trajectories has its entire pre-clamp perturbed
action sequence forced to the literal zero action (not to the configured
default action `u_init`). -/
theorem c6_null_sample_is_zero {K T nu nx : ℕ} (cfg : Config K T nu nx)
    (ns : Fin K → Fin T → Fin nu → ℝ) (U1 : Fin T → Fin nu → ℝ)
    (h : cfg.sample_null_action = true) (k : Fin K) (hk : (k : ℕ) = K - 1)
    (t : Fin T) (j : Fin nu) :
    preClampPerturbed cfg ns U1 k t j = 0 := by
  simp [preClampPerturbed, forceNull, h, hk]

/-- Witness for C6: with null-action sampling enabled the last sample's
pre-clamp action entry is `0`. -/
theorem c6_witness :
    preClampPerturbed c6cfg (fun _ _ _ => 0)
      (shiftU c6cfg.u_init (freshState 1 1 1 1).U) 0 0 0 = 0 :=
  c6_null_sample_is_zero c6cfg _ _ rfl 0 rfl 0 0

/-- Counterexample for C6 as stated: `c6cfg` configures `u_init = 1`, yet
the forced last sample's pre-clamp action entry is `0`, which differs from
the configured default action. -/
theorem c6_counterexample :
    preClampPerturbed c6cfg (fun _ _ _ => 0)
      (shiftU c6cfg.u_init (freshState 1 1 1 1).U) 0 0 0 = 0
    ∧ c6cfg.u_init 0 = 1 ∧ (0 : ℝ) ≠ 1 := by
  refine ⟨?_, rfl, by norm_num⟩
  simp [preClampPerturbed, forceNull, c6cfg]

/-- C7 (amended): the dynamics boundary is invoked at each timestep with
the perturbed action multiplied by the control-scale factor (and is handed
the timestep index exactly when step-dependent dynamics is configured);
the recorded action sequences handed to the cost boundary are those same
scaled actions, and (whenever the clamp step succeeds, i.e. bounds are
configured) the stored action sequence is divided by the scale factor only
after the cost call. -/
theorem c7_scale_handling {K T nu nx : ℕ} (cfg : Config K T nu nx)
    (ns : Fin K → Fin T → Fin nu → ℝ) (st : StateInput nx K)
    (s : CtrlState K T nu nx) :
    (∀ k t j, cmdCostActions cfg ns (shiftU cfg.u_init s.U) k t j
        = cfg.u_scale * postClampPerturbed cfg ns (shiftU cfg.u_init s.U) k t j)
    ∧ (∀ (k : Fin K) (n : ℕ) (hn : n < T),
        cmdStateAt cfg ns (shiftU cfg.u_init s.U) st k (n + 1)
          = cmdDyn cfg (cmdStateAt cfg ns (shiftU cfg.u_init s.U) st k n)
              (fun j => cfg.u_scale *
                postClampPerturbed cfg ns (shiftU cfg.u_init s.U) k ⟨n, hn⟩ j) n)
    ∧ (∀ mn, cfg.u_min = some mn →
        (command cfg ns st s).2.actions
          = some fun k t j =>
              cmdCostActions cfg ns (shiftU cfg.u_init s.U) k t j / cfg.u_scale)
    ∧ (cfg.stepDep = true → ∀ a u t, cmdDyn cfg a u t = cfg.F3 a u t)
    ∧ (cfg.stepDep = false → ∀ a u t, cmdDyn cfg a u t = cfg.F2 a u) := by
  refine ⟨fun k t j => rfl, ?_, ?_, ?_, ?_⟩
  · intro k n hn
    simp only [cmdStateAt, stateSeq, dif_pos hn]
  · intro mn hmn
    simp only [command]
    split
    · next h =>
        rw [hmn] at h
        simp at h
    · rfl
  · intro h a u t
    simp [cmdDyn, dynOf, h]
  · intro h a u t
    simp [cmdDyn, dynOf, h]

/-- Witness for C7: with step-independent dynamics configured the resolved
dynamics call forwards to the two-argument boundary. -/
theorem c7_witness :
    ∀ a u t, cmdDyn c7cfg a u t = c7cfg.F2 a u :=
  (c7_scale_handling c7cfg (fun _ _ _ => 0) (.single fun _ => 0)
    (freshState 1 1 1 1)).2.2.2.2 rfl

/-- Counterexample for C7 as stated: with `u_scale = 2` and post-clamp
perturbed action `1`, the cost boundary of `c7cfg` (which returns the
first action entry it receives) sees the scaled value `2`, not the
unscaled-back action `1`. -/
theorem c7_counterexample :
    cmdTotalCost c7cfg (fun _ _ _ => 0)
      (shiftU c7cfg.u_init (freshState 1 1 1 1).U) (.single fun _ => 0) 0 = 2
    ∧ postClampPerturbed c7cfg (fun _ _ _ => 0)
        (shiftU c7cfg.u_init (freshState 1 1 1 1).U) 0 0 0 = 1
    ∧ (2 : ℝ) ≠ 1 := by
  refine ⟨?_, ?_, by norm_num⟩
  · simp [cmdTotalCost, cmdCostActions, postClampPerturbed, clampBatch,
      clampOpt, preClampPerturbed, forceNull, rawPerturbed, shiftU, freshState,
      c7cfg, perturbationCost, actionCost, cmdEffNoise, effNoise]
    norm_num
  · simp [postClampPerturbed, clampBatch, clampOpt, preClampPerturbed,
      forceNull, rawPerturbed, shiftU, freshState, c7cfg]
    norm_num

/-- C8 (amended): when only one bound is supplied the other is derived by
negation, and the elementwise invariant `u_min <= u_max` holds for the
derived pair exactly under the corresponding sign condition (`u_max >= 0`
when only `u_max` is supplied, `u_min <= 0` when only `u_min` is
supplied); when both are supplied they are stored as given, with no
invariant enforced by the constructor. -/
theorem c8_bound_negation {nu : ℕ} (v w : Fin nu → ℝ) :
    (initBounds none (some v) = (some fun j => -(v j), some v)
      ∧ ((∀ j, 0 ≤ v j) → ∀ j, -(v j) ≤ v j))
    ∧ (initBounds (some v) none = (some v, some fun j => -(v j))
      ∧ ((∀ j, v j ≤ 0) → ∀ j, v j ≤ -(v j)))
    ∧ initBounds (some v) (some w) = (some v, some w) := by
  refine ⟨⟨rfl, fun h j => ?_⟩, ⟨rfl, fun h j => ?_⟩, rfl⟩
  · exact neg_le_self (h j)
  · exact le_neg_self_iff.mpr (h j)

/-- Witness for C8: with `u_max = 1` supplied alone, the derived pair
`(-1, 1)` satisfies the elementwise invariant. -/
theorem c8_witness :
    ∀ _j : Fin 1, -((1 : ℝ)) ≤ (1 : ℝ) :=
  (c8_bound_negation (fun _ : Fin 1 => (1 : ℝ)) fun _ => 1).1.2 fun _ => by
    norm_num

/-- Counterexample for C8 as stated: supplying only `u_min = 1` derives
`u_max = -1`, and the resulting pair violates `u_min <= u_max`. -/
theorem c8_counterexample :
    initBounds (some fun _ : Fin 1 => (1 : ℝ)) none
      = (some fun _ => (1 : ℝ), some fun _ => (-1 : ℝ))
    ∧ ¬ ((1 : ℝ) ≤ -1) := ⟨rfl, by norm_num⟩

end MPPI
